import Mathlib

/-!
Verification development for the `wazo-receptionniste` repository.

The repository is a small AI voice receptionist: `app/ai_handler.py` wraps the
speech provider (TTS with a content-addressed file cache, STT, intent
classification, message collection) and `app/ari_handler.py` is the per-call
dialog engine driven by Asterisk ARI events over a session table.

This file shallowly embeds the data model and the operations of those two
modules.  External I/O (the HTTP responses of the OpenAI and ARI endpoints,
the filesystem) is passed in explicitly: chat/STT outcomes are `Option`-valued
oracles (`none` models a raised exception), the filesystem is a function from
paths to optional file contents, and each handler returns the new engine state
together with the list of outward calls it performed.
-/

namespace Recept

/-! ### Python string primitives, modelled on `List Char`

The source manipulates Python `str` values with `startswith`, `replace`,
`strip`, `lower` and the substring operator `in`.  These are modelled
character-listwise; `String.toList`/`String.mk` mediate at the boundaries. -/

/-- Model of Python `hay.startswith(pre)`: `pre` is a prefix of the list. -/
def beginsWith : List Char → List Char → Bool
  | [], _ => true
  | _ :: _, [] => false
  | a :: as, b :: bs => (a == b) && beginsWith as bs

/-- Model of Python `needle in hay` on strings: `needle` occurs contiguously in
`hay` (the empty needle occurs in everything, as in Python). -/
def occursIn (needle : List Char) : List Char → Bool
  | [] => beginsWith needle []
  | b :: bs => beginsWith needle (b :: bs) || occursIn needle bs

/-- Recursion worker for `pyReplace`, structural in a character-count fuel. -/
def pyReplaceAux (old new : List Char) : Nat → List Char → List Char
  | _, [] => []
  | 0, s => s
  | fuel + 1, c :: rest =>
    if !old.isEmpty && beginsWith old (c :: rest) then
      new ++ pyReplaceAux old new fuel ((c :: rest).drop old.length)
    else
      c :: pyReplaceAux old new fuel rest

/-- Model of Python `s.replace(old, new)` for a nonempty `old`: replace every
non-overlapping occurrence, left to right (the fuel `s.length` never runs out,
as every step of `pyReplaceAux` consumes at least one character).  The source
only uses it with the nonempty pattern `"channel:"`; the empty-pattern case
(where CPython interleaves `new` between characters) is modelled as the
identity. -/
def pyReplace (old new s : List Char) : List Char :=
  pyReplaceAux old new s.length s

/-- Leading-whitespace strip (one side of Python `str.strip`). -/
def pyStripL (s : List Char) : List Char := s.dropWhile Char.isWhitespace

/-- Model of Python `s.strip()`: drop leading and trailing whitespace. -/
def pyStrip (s : List Char) : List Char :=
  ((pyStripL s).reverse.dropWhile Char.isWhitespace).reverse

/-- Model of Python `s.lower()` (characterwise lowering). -/
def pyLower (s : List Char) : List Char := s.map Char.toLower

/-! ### Data model (`app/config.py`, `app/ari_handler.py`) -/

/-- One company service (`config.Service`): an extension and a display name. -/
structure Service where
  extension : String
  name : String
deriving DecidableEq

/-- Call states (`ari_handler.CallState`). -/
inductive CallState
  | greeting
  | waitingServiceChoice
  | transferring
  | collectingMessage
  | ending
deriving DecidableEq

/-- One conversation message (`{"role": ..., "content": ...}` dict). -/
structure Msg where
  role : String
  content : String
deriving DecidableEq

/-- Python dicts with string keys and values are modelled as association
lists in insertion order (`List.lookup` is the read). -/
abbrev StrDict := List (String × String)

/-- Per-call session record (`ari_handler.CallSession`). -/
structure CallSession where
  channel_id : String
  caller_id : String
  state : CallState := .greeting
  target_service : Option Service := none
  message_info : StrDict := []
  conversation : List Msg := []
  retry_count : Nat := 0
deriving DecidableEq

/-- Model of Python `dict.update`: every key present in `new` overwrites the
entry of `old` (in place, keeping `old`'s key order), and keys of `new` absent
from `old` are appended in `new`'s order. -/
def dictUpdate (old new : StrDict) : StrDict :=
  old.map (fun kv =>
    match List.lookup kv.1 new with
    | some v => (kv.1, v)
    | none => kv)
  ++ new.filter (fun kv => (List.lookup kv.1 old).isNone)

/-! ### AI handler (`app/ai_handler.py`) -/

/-- Transfer announcement template used by `understand_intent` (line 136). -/
def transferTemplate (name : String) : String :=
  "Je vous transfère au " ++ name ++ ". Un instant s\x27il vous plaît."

/-- Embeds `AIHandler.understand_intent` (ai_handler.py lines 108–143).
The chat-completion call is external; `content` is the raw content of the
model's reply message.  The source strips it, then scans the configured
services in directory order for the first whose lowered name occurs as a
substring of the lowered reply; on a match it returns that service and the
deterministic announcement template, otherwise no service and the (stripped)
reply itself as the clarification response. -/
def understand_intent (services : List Service) (content : String) :
    Option Service × String :=
  let ai_response := pyStrip content.toList
  match services.find?
      (fun s => occursIn (pyLower s.name.toList) (pyLower ai_response)) with
  | some service => (some service, transferTemplate service.name)
  | none => (none, String.mk ai_response)

/-- Result of `AIHandler.collect_message_info` (lines 145–194): the parsed
`complete` flag, the `info` dict and the response text the engine will speak.
The call is external (chat completion + JSON parse); handlers receive it as
an oracle, `none` standing for a raised exception. -/
structure CollectResult where
  complete : Bool
  info : StrDict
  response : String
deriving DecidableEq

/-! ### TTS cache (`AIHandler.text_to_speech`, ai_handler.py lines 51–84)

The filesystem is a function from paths to optional file contents.  The MD5
digest and the upstream synthesis endpoint are external; they are passed in as
functions (`digest` maps the UTF-8 bytes of the text to its hex digest string,
`synth` maps the text to the synthesized wav bytes). -/

/-- Filesystem model: path → contents of the file there, `none` if absent. -/
def FS : Type := String → Option (List UInt8)

/-- Cache path for a text: `cache_dir/<first 12 hex digits of digest>.wav`
(lines 62–63). -/
def ttsPath (digest : List UInt8 → String) (cacheDir text : String) : String :=
  cacheDir ++ "/" ++ (digest text.toUTF8.toList).take 12 ++ ".wav"

/-- Result of one `text_to_speech` call: the returned path, whether the
upstream synthesis endpoint was invoked, and the filesystem afterwards. -/
structure TTSResult where
  path : String
  synthesized : Bool
  fs : FS

/-- Embeds `AIHandler.text_to_speech` (lines 51–84), sequentially: if
`use_cache` and the cache file exists, return its path without synthesizing;
otherwise call the synthesis endpoint and write the stream to the cache path
(directly — the source opens the final path with mode `wb`). -/
def text_to_speech (digest : List UInt8 → String) (synth : String → List UInt8)
    (cacheDir : String) (fs : FS) (text : String) (use_cache : Bool) :
    TTSResult :=
  let cache_path := ttsPath digest cacheDir text
  if use_cache && (fs cache_path).isSome then
    ⟨cache_path, false, fs⟩
  else
    ⟨cache_path, true, fun p => if p = cache_path then some (synth text) else fs p⟩

/-! #### Interleaved execution of two concurrent `text_to_speech` calls

The source runs under a single cooperative event loop; a task can be
interleaved at each `await`.  Within `text_to_speech` (with `use_cache=True`)
the suspension points give each call three atomic steps:

1. the cache-existence check, which either finishes the call (hit) or issues
   the upstream synthesis request;
2. the synthesis response arriving and `open(cache_path, "wb")` truncating or
   creating the cache file (empty at this instant);
3. the chunk loop writing the full stream, after which the call returns.

A schedule is a list of booleans (`true` steps task A, `false` steps task B). -/

inductive TTSPhase
  | ready
  | synthing
  | writing
  | done (path : String) (hit : Bool)
deriving DecidableEq

structure TTSTask where
  text : String
  phase : TTSPhase
deriving DecidableEq

structure TTSWorld where
  fs : FS
  synthCount : Nat
  tA : TTSTask
  tB : TTSTask

/-- One atomic step of a single `text_to_speech` task (see the step list
above); finished tasks are unaffected. -/
def taskStep (digest : List UInt8 → String) (synth : String → List UInt8)
    (cacheDir : String) (fs : FS) (cnt : Nat) (t : TTSTask) :
    FS × Nat × TTSTask :=
  let path := ttsPath digest cacheDir t.text
  match t.phase with
  | .ready =>
    if (fs path).isSome then (fs, cnt, { t with phase := .done path true })
    else (fs, cnt + 1, { t with phase := .synthing })
  | .synthing =>
    (fun p => if p = path then some [] else fs p, cnt, { t with phase := .writing })
  | .writing =>
    (fun p => if p = path then some (synth t.text) else fs p, cnt,
      { t with phase := .done path false })
  | .done _ _ => (fs, cnt, t)

/-- Step the task selected by the head of the schedule. -/
def worldStep (digest : List UInt8 → String) (synth : String → List UInt8)
    (cacheDir : String) (w : TTSWorld) (pickA : Bool) : TTSWorld :=
  if pickA then
    let r := taskStep digest synth cacheDir w.fs w.synthCount w.tA
    { w with fs := r.1, synthCount := r.2.1, tA := r.2.2 }
  else
    let r := taskStep digest synth cacheDir w.fs w.synthCount w.tB
    { w with fs := r.1, synthCount := r.2.1, tB := r.2.2 }

/-- Run a schedule. -/
def runSched (digest : List UInt8 → String) (synth : String → List UInt8)
    (cacheDir : String) (w : TTSWorld) : List Bool → TTSWorld
  | [] => w
  | b :: bs => runSched digest synth cacheDir (worldStep digest synth cacheDir w b) bs

/-- Run both tasks to completion (three further steps each always suffice). -/
def drain (digest : List UInt8 → String) (synth : String → List UInt8)
    (cacheDir : String) (w : TTSWorld) : TTSWorld :=
  runSched digest synth cacheDir w [true, true, true, false, false, false]

/-- Two concurrent `text_to_speech` calls for the same `text` against an empty
cache, interleaved by `sched` and then drained to completion. -/
def ttsConcur (digest : List UInt8 → String) (synth : String → List UInt8)
    (cacheDir text : String) (sched : List Bool) : TTSWorld :=
  drain digest synth cacheDir
    (runSched digest synth cacheDir
      ⟨fun _ => none, 0, ⟨text, .ready⟩, ⟨text, .ready⟩⟩ sched)

/-- `true` when the phase is `done` at exactly the given path. -/
def doneAt (ph : TTSPhase) (p : String) : Bool :=
  match ph with
  | .done q _ => q = p
  | _ => false

/-! ### Dialog engine (`app/ari_handler.py`)

Each event handler is embedded as a function from the engine state (the
session table) to the new state, together with the list of outward calls it
performed, in order.  External AI calls are oracles: `Option`-valued inputs
whose `none` models the call raising an exception.  Playing an audio file is
recorded as `Action.play` carrying the spoken text (the audio path is the
deterministic function of the text given by `ttsPath`); the boolean `ttsOk`
oracle models whether `text_to_speech` raises. -/

/-- Outward calls a handler can make, in order of emission. -/
inductive Action
  | play (channel_id text : String)
  | record (channel_id : String)
  | stt (audio_path : String)
  | originate (channel_id extension : String)
  | notify (caller_id service nom societe sujet : String)
  | hangup (channel_id : String)
deriving DecidableEq

/-- Engine state: the session table (`ARIHandler.sessions`), keyed by channel
id.  Handler code mutates the `CallSession` object found by `dict.get`; this
is modelled by rewriting the table entry at that key. -/
structure EngState where
  sessions : List (String × CallSession)
deriving DecidableEq

def tableLookup (st : EngState) (ch : String) : Option CallSession :=
  List.lookup ch st.sessions

/-- Overwrite the session object stored under `ch` (in-place mutation of the
object found by `sessions.get`). -/
def tableSet (st : EngState) (ch : String) (s : CallSession) : EngState :=
  ⟨st.sessions.map (fun kv => if kv.1 = ch then (ch, s) else kv)⟩

/-- Result of running one handler: new state, emitted actions in order, and
whether an exception escaped the handler. -/
structure HRes where
  st : EngState
  acts : List Action
  raised : Bool
deriving DecidableEq

/-- Channel-id extraction used by the playback/recording handlers (lines
140–143 and 171–174): `target_uri.replace("channel:", "")` guarded by
`target_uri.startswith("channel:")`; events of any other shape are dropped. -/
def extractChannelId (target_uri : String) : Option String :=
  if beginsWith "channel:".toList target_uri.toList then
    some (String.mk (pyReplace "channel:".toList [] target_uri.toList))
  else none

/-- Opener of the message-collection dialog (line 268). -/
def busyOpener : String :=
  "Le service est actuellement occupé. Puis-je prendre un message ? Quel est votre nom ?"

/-- Clarification retry message (`play_error_and_retry`, lines 398–403). -/
def clarifyMsg : String :=
  "Je n\x27ai pas compris. Pouvez-vous répéter s\x27il vous plaît ?"

/-- Recording file path (line 183). -/
def recordingPath (recording_name : String) : String :=
  "/var/spool/asterisk/recording/" ++ recording_name ++ ".wav"

/-- Embeds `ARIHandler.play_error_and_retry` (lines 398–403): synthesize and
play the clarification message; a synthesis failure escapes the handler. -/
def play_error_and_retry (st : EngState) (ch : String) (ttsOk : Bool) : HRes :=
  if ttsOk then ⟨st, [.play ch clarifyMsg], false⟩ else ⟨st, [], true⟩

/-- Embeds `ARIHandler.start_message_collection` (lines 259–272): if the
session exists, set its state to CollectingMessage and clear the conversation,
then synthesize the busy opener (mutations so far persist if that raises),
append the assistant opener and play it. -/
def start_message_collection (st : EngState) (ch : String) (ttsOk : Bool) : HRes :=
  match tableLookup st ch with
  | none => ⟨st, [], false⟩
  | some session =>
    let s1 := { session with state := CallState.collectingMessage,
                             conversation := [] }
    if ttsOk then
      let s2 := { s1 with conversation := [⟨"assistant", busyOpener⟩] }
      ⟨tableSet st ch s2, [.play ch busyOpener], false⟩
    else
      ⟨tableSet st ch s1, [], true⟩

/-- `start_message_collection` as called inside the `try` of
`transfer_to_extension` (lines 309 and 312): an exception it raises is caught
by the `except` at line 314, which calls it once more (line 316); an exception
from that second call escapes. -/
def smcWithRetry (st : EngState) (ch : String) (ttsOk : Bool) : HRes :=
  let r1 := start_message_collection st ch ttsOk
  if r1.raised then
    let r2 := start_message_collection r1.st ch ttsOk
    ⟨r2.st, r1.acts ++ r2.acts, r2.raised⟩
  else r1

/-- Embeds the part of `ARIHandler.transfer_to_extension` (lines 274–316) up
to and including the originate POST and its immediate consequences.
`outcome` is the POST result: `some status` an HTTP response with that status,
`none` a network error (a raised exception).  On status exactly 200 the
handler sleeps `ring_timeout + 1` seconds and then runs the watchdog check —
returned here as `some ch`, the armed watchdog (see `watchdog_fire`); on any
other status, and on a network error, it falls into message collection
immediately. -/
def transfer_to_extension (st : EngState) (ch extension : String)
    (outcome : Option Nat) (ttsOk : Bool) : HRes × Option String :=
  match tableLookup st ch with
  | none => (⟨st, [], false⟩, none)
  | some _ =>
    match outcome with
    | some status =>
      if status = 200 then
        (⟨st, [.originate ch extension], false⟩, some ch)
      else
        let r := smcWithRetry st ch ttsOk
        (⟨r.st, .originate ch extension :: r.acts, r.raised⟩, none)
    | none =>
      let r := start_message_collection st ch ttsOk
      (⟨r.st, .originate ch extension :: r.acts, r.raised⟩, none)

/-- Embeds the ring watchdog firing (lines 303–309 after the sleep): the code
reads the `state` field of the session *object* captured before the sleep
(`capturedState` — still `transferring` if the session was popped from the
table meanwhile) and, if it is Transferring, calls `start_message_collection`,
which itself re-looks the channel up in the table. -/
def watchdog_fire (st : EngState) (capturedState : CallState) (ch : String)
    (ttsOk : Bool) : HRes :=
  if capturedState = CallState.transferring then smcWithRetry st ch ttsOk
  else ⟨st, [], false⟩

/-- The n8n notification payload (`send_message_to_n8n`, lines 318–344);
failures inside it are caught and logged, so it is a single emitted action. -/
def notifyAction (s : CallSession) : Action :=
  .notify s.caller_id
    (match s.target_service with
     | some sv => sv.name
     | none => "Non spécifié")
    ((List.lookup "nom" s.message_info).getD "Non spécifié")
    ((List.lookup "societe" s.message_info).getD "Non spécifiée")
    ((List.lookup "sujet" s.message_info).getD "Non spécifié")

/-- Embeds `ARIHandler.handle_message_collection` (lines 233–257): append the
user transcript to the conversation, run the collector (`collectOut`, `none`
modelling a raised exception — the user append persists), shallow-update
`message_info` with the returned info dict, synthesize the response (`ttsOk
= false` models a raise there — the merge persists), on `complete` set state
Ending and fire the webhook notification, then append the assistant response
and play it. -/
def handle_message_collection (st : EngState) (ch transcript : String)
    (collectOut : Option CollectResult) (ttsOk : Bool) : HRes :=
  match tableLookup st ch with
  | none => ⟨st, [], false⟩
  | some session =>
    let s1 := { session with
                conversation := session.conversation ++ [⟨"user", transcript⟩] }
    match collectOut with
    | none => ⟨tableSet st ch s1, [], true⟩
    | some result =>
      let s2 := { s1 with message_info := dictUpdate s1.message_info result.info }
      if ttsOk then
        let s3 := if result.complete then { s2 with state := CallState.ending } else s2
        let notifyActs := if result.complete then [notifyAction s3] else []
        let s4 := { s3 with
                    conversation := s3.conversation ++ [⟨"assistant", result.response⟩] }
        ⟨tableSet st ch s4, notifyActs ++ [.play ch result.response], false⟩
      else
        ⟨tableSet st ch s2, [], true⟩

/-- Embeds `ARIHandler.handle_service_choice` (lines 199–231).  `chatReply` is
the raw reply of the chat completion inside `understand_intent` (`none` = that
call raised).  On a match: store the service, move to Transferring, play the
announcement (`ttsOk = false` models the synthesis raising after the state was
already set), then run the transfer origination.  On no match: bump
`retry_count`; at three, fall into message collection, otherwise play the
clarification response. -/
def handle_service_choice (services : List Service) (st : EngState)
    (ch transcript : String) (chatReply : Option String) (ttsOk : Bool)
    (origOutcome : Option Nat) : HRes × Option String :=
  match tableLookup st ch with
  | none => (⟨st, [], false⟩, none)
  | some session =>
    match chatReply with
    | none => (⟨st, [], true⟩, none)
    | some reply =>
      match understand_intent services reply with
      | (some service, response) =>
        let s1 := { session with target_service := some service,
                                 state := CallState.transferring }
        let st1 := tableSet st ch s1
        if ttsOk then
          let r := transfer_to_extension st1 ch service.extension origOutcome ttsOk
          (⟨r.1.st, .play ch response :: r.1.acts, r.1.raised⟩, r.2)
        else (⟨st1, [], true⟩, none)
      | (none, response) =>
        let s1 := { session with retry_count := session.retry_count + 1 }
        let st1 := tableSet st ch s1
        if s1.retry_count ≥ 3 then
          (start_message_collection st1 ch ttsOk, none)
        else
          if ttsOk then (⟨st1, [.play ch response], false⟩, none)
          else (⟨st1, [], true⟩, none)

/-- Embeds `ARIHandler.on_recording_finished` (lines 165–197): extract the
channel id from `target_uri` (events of other shapes are dropped), look the
session up (unknown channels are dropped), transcribe the recording file
(`sttOut`, `none` = raise), then dispatch on the session state.  Exceptions
anywhere in the chain are caught and turned into the clarification retry. -/
def on_recording_finished (services : List Service) (st : EngState)
    (recording_name target_uri : String) (sttOut : Option String)
    (chatReply : Option String) (collectOut : Option CollectResult)
    (ttsOk : Bool) (origOutcome : Option Nat) : HRes × Option String :=
  match extractChannelId target_uri with
  | none => (⟨st, [], false⟩, none)
  | some ch =>
    match tableLookup st ch with
    | none => (⟨st, [], false⟩, none)
    | some session =>
      let sttA := Action.stt (recordingPath recording_name)
      match sttOut with
      | none =>
        let r := play_error_and_retry st ch ttsOk
        (⟨r.st, sttA :: r.acts, r.raised⟩, none)
      | some transcript =>
        if session.state = CallState.waitingServiceChoice then
          let r := handle_service_choice services st ch transcript chatReply ttsOk origOutcome
          if r.1.raised then
            let r2 := play_error_and_retry r.1.st ch ttsOk
            (⟨r2.st, sttA :: (r.1.acts ++ r2.acts), r2.raised⟩, r.2)
          else (⟨r.1.st, sttA :: r.1.acts, false⟩, r.2)
        else if session.state = CallState.collectingMessage then
          let r := handle_message_collection st ch transcript collectOut ttsOk
          if r.raised then
            let r2 := play_error_and_retry r.st ch ttsOk
            (⟨r2.st, sttA :: (r.acts ++ r2.acts), r2.raised⟩, none)
          else (⟨r.st, sttA :: r.acts, false⟩, none)
        else (⟨st, [sttA], false⟩, none)

/-- Embeds `ARIHandler.on_channel_destroyed` (lines 119–126): pop the session
from the table if present.  The popped object itself is not altered. -/
def on_channel_destroyed (st : EngState) (ch : String) : EngState :=
  ⟨st.sessions.filter (fun kv => kv.1 ≠ ch)⟩

/-- Embeds `ARIHandler.on_playback_finished` (lines 134–163): on a
channel-shaped event for a known session, arm a recording (Greeting first
moves to WaitingServiceChoice) or hang up when Ending; other states ignore. -/
def on_playback_finished (st : EngState) (target_uri : String) :
    EngState × List Action :=
  match extractChannelId target_uri with
  | none => (st, [])
  | some ch =>
    match tableLookup st ch with
    | none => (st, [])
    | some session =>
      match session.state with
      | .greeting =>
        (tableSet st ch { session with state := CallState.waitingServiceChoice },
         [.record ch])
      | .waitingServiceChoice => (st, [.record ch])
      | .collectingMessage => (st, [.record ch])
      | .ending => (st, [.hangup ch])
      | .transferring => (st, [])

/-! ### Session-table lemmas -/

theorem tableLookup_set (st : EngState) (ch : String) (s : CallSession)
    (h : (tableLookup st ch).isSome) :
    tableLookup (tableSet st ch s) ch = some s := by
  rcases st with ⟨l⟩
  induction l with
  | nil => simp [tableLookup, List.lookup_nil] at h
  | cons kv t ih =>
    rcases kv with ⟨a, b⟩
    by_cases hk : a = ch
    · subst hk
      simp [tableLookup, tableSet, List.lookup_cons]
    · have hne : (ch == a) = false := by simp [Ne.symm hk]
      have h' : (tableLookup ⟨t⟩ ch).isSome := by
        simpa [tableLookup, List.lookup_cons, hne] using h
      simpa [tableLookup, tableSet, hk, List.lookup_cons, hne] using ih h'

theorem tableLookup_destroyed (st : EngState) (ch : String) :
    tableLookup (on_channel_destroyed st ch) ch = none := by
  rcases st with ⟨l⟩
  induction l with
  | nil => simp [tableLookup, on_channel_destroyed, List.lookup_nil]
  | cons kv t ih =>
    rcases kv with ⟨a, b⟩
    by_cases hk : a = ch
    · subst hk
      simpa [tableLookup, on_channel_destroyed, List.filter_cons] using ih
    · have hne : (ch == a) = false := by simp [Ne.symm hk]
      simpa [tableLookup, on_channel_destroyed, List.filter_cons, hk,
        List.lookup_cons, hne] using ih

/-! ### Dict-update lemmas (`dictUpdate` = Python `dict.update`) -/

theorem lookup_dictUpdate_left (old new : StrDict) (k : String) :
    List.lookup k (old.map (fun kv =>
        match List.lookup kv.1 new with
        | some v => (kv.1, v)
        | none => kv)) =
      match List.lookup k old with
      | none => none
      | some v => some ((List.lookup k new).getD v) := by
  induction old with
  | nil => simp [List.lookup_nil]
  | cons kv t ih =>
    rcases kv with ⟨a, b⟩
    by_cases hk : k = a
    · subst hk
      cases hv : List.lookup k new <;>
        simp [List.lookup_cons, hv]
    · have hne : (k == a) = false := by simp [hk]
      cases hv : List.lookup a new <;>
        simp [List.lookup_cons, hne, hv, ih]

theorem lookup_dictUpdate_right_none (old new : StrDict) (k : String)
    (h : List.lookup k old = none) :
    List.lookup k (new.filter (fun kv => (List.lookup kv.1 old).isNone)) =
      List.lookup k new := by
  induction new with
  | nil => simp
  | cons kv t ih =>
    rcases kv with ⟨a, b⟩
    by_cases hk : k = a
    · subst hk
      simp [List.filter_cons, h, List.lookup_cons]
    · have hne : (k == a) = false := by simp [hk]
      by_cases ha : List.lookup a old = none
      · simp [List.filter_cons, ha, List.lookup_cons, hne, ih]
      · rcases Option.ne_none_iff_exists'.mp ha with ⟨v, hv⟩
        simp [List.filter_cons, hv, List.lookup_cons, hne, ih]

theorem lookup_dictUpdate_right_some (old new : StrDict) (k : String)
    (h : (List.lookup k old).isSome) :
    List.lookup k (new.filter (fun kv => (List.lookup kv.1 old).isNone)) = none := by
  induction new with
  | nil => simp
  | cons kv t ih =>
    rcases kv with ⟨a, b⟩
    by_cases hk : k = a
    · subst hk
      rcases Option.isSome_iff_exists.mp h with ⟨v, hv⟩
      simp [List.filter_cons, hv, ih]
    · have hne : (k == a) = false := by simp [hk]
      by_cases ha : List.lookup a old = none
      · simp [List.filter_cons, ha, List.lookup_cons, hne, ih]
      · rcases Option.ne_none_iff_exists'.mp ha with ⟨v, hv⟩
        simp [List.filter_cons, hv, List.lookup_cons, hne, ih]

theorem lookup_append_str (l₁ l₂ : StrDict) (k : String) :
    List.lookup k (l₁ ++ l₂) =
      match List.lookup k l₁ with
      | some v => some v
      | none => List.lookup k l₂ := by
  induction l₁ with
  | nil => simp [List.lookup_nil]
  | cons kv t ih =>
    rcases kv with ⟨a, b⟩
    by_cases hk : k = a
    · subst hk; simp [List.lookup_cons]
    · have hne : (k == a) = false := by simp [hk]
      simp [List.lookup_cons, hne, ih]

/-- Reading the merged dict: a key present in `new` yields `new`'s value
(even an empty one), otherwise `old`'s value survives. -/
theorem lookup_dictUpdate (old new : StrDict) (k : String) :
    List.lookup k (dictUpdate old new) =
      match List.lookup k new with
      | some v => some v
      | none => List.lookup k old := by
  unfold dictUpdate
  rw [lookup_append_str, lookup_dictUpdate_left]
  cases ho : List.lookup k old with
  | none =>
    rw [lookup_dictUpdate_right_none old new k ho]
    cases List.lookup k new <;> rfl
  | some v =>
    have : (List.lookup k old).isSome := by simp [ho]
    rw [lookup_dictUpdate_right_some old new k this]
    cases List.lookup k new <;> rfl

/-! ### `start_message_collection` lemmas -/

theorem smc_found (st : EngState) (ch : String) (s : CallSession) (ttsOk : Bool)
    (h : tableLookup st ch = some s) :
    start_message_collection st ch ttsOk =
      ⟨tableSet st ch
         { s with state := CallState.collectingMessage,
                  conversation := if ttsOk then [⟨"assistant", busyOpener⟩] else [] },
       if ttsOk then [Action.play ch busyOpener] else [],
       !ttsOk⟩ := by
  unfold start_message_collection
  rw [h]
  cases ttsOk <;> rfl

theorem smc_missing (st : EngState) (ch : String) (ttsOk : Bool)
    (h : tableLookup st ch = none) :
    start_message_collection st ch ttsOk = ⟨st, [], false⟩ := by
  unfold start_message_collection
  rw [h]

theorem smc_state (st : EngState) (ch : String) (s : CallSession) (ttsOk : Bool)
    (h : tableLookup st ch = some s) :
    (tableLookup (start_message_collection st ch ttsOk).st ch).map CallSession.state =
      some CallState.collectingMessage := by
  rw [smc_found st ch s ttsOk h]
  rw [show (⟨tableSet st ch
      { s with state := CallState.collectingMessage,
               conversation := if ttsOk then [⟨"assistant", busyOpener⟩] else [] },
      if ttsOk then [Action.play ch busyOpener] else [], !ttsOk⟩ : HRes).st =
      tableSet st ch
        { s with state := CallState.collectingMessage,
                 conversation := if ttsOk then [⟨"assistant", busyOpener⟩] else [] } from rfl]
  rw [tableLookup_set st ch _ (by simp [h])]
  rfl

theorem smcRetry_state (st : EngState) (ch : String) (s : CallSession) (ttsOk : Bool)
    (h : tableLookup st ch = some s) :
    (tableLookup (smcWithRetry st ch ttsOk).st ch).map CallSession.state =
      some CallState.collectingMessage := by
  cases ttsOk with
  | true =>
    unfold smcWithRetry
    rw [smc_found st ch s true h]
    show (tableLookup (tableSet st ch
        { s with state := CallState.collectingMessage,
                 conversation := [⟨"assistant", busyOpener⟩] }) ch).map CallSession.state =
      some CallState.collectingMessage
    rw [tableLookup_set st ch _ (by simp [h])]
    rfl
  | false =>
    have h1 : tableLookup
        (tableSet st ch { s with state := CallState.collectingMessage, conversation := [] }) ch =
        some { s with state := CallState.collectingMessage, conversation := [] } :=
      tableLookup_set st ch _ (by simp [h])
    unfold smcWithRetry
    rw [smc_found st ch s false h]
    show (tableLookup (start_message_collection
        (tableSet st ch { s with state := CallState.collectingMessage, conversation := [] })
        ch false).st ch).map CallSession.state = some CallState.collectingMessage
    exact smc_state _ ch _ false h1

theorem smcRetry_missing (st : EngState) (ch : String) (ttsOk : Bool)
    (h : tableLookup st ch = none) :
    smcWithRetry st ch ttsOk = ⟨st, [], false⟩ := by
  unfold smcWithRetry
  rw [smc_missing st ch ttsOk h]
  rfl

theorem smc_session_found (st : EngState) (ch : String) (s : CallSession) (ttsOk : Bool)
    (h : tableLookup st ch = some s) :
    tableLookup (start_message_collection st ch ttsOk).st ch =
      some { s with state := CallState.collectingMessage,
                    conversation := if ttsOk then [⟨"assistant", busyOpener⟩] else [] } := by
  rw [smc_found st ch s ttsOk h]
  exact tableLookup_set st ch _ (by simp [h])

theorem smc_acts_found (st : EngState) (ch : String) (s : CallSession) (ttsOk : Bool)
    (h : tableLookup st ch = some s) :
    (start_message_collection st ch ttsOk).acts =
      if ttsOk then [Action.play ch busyOpener] else [] := by
  rw [smc_found st ch s ttsOk h]

/-! ### Concrete fixtures used by counterexamples and witnesses -/

/-- The spec's example service directory. -/
def svs : List Service := [⟨"101", "Ventes"⟩, ⟨"102", "Support"⟩, ⟨"103", "Comptabilité"⟩]

/-- A session sitting in Transferring. -/
def sessT : CallSession :=
  { channel_id := "A", caller_id := "41790000000", state := CallState.transferring }

/-- One-session table holding `sessT`. -/
def stT : EngState := ⟨[("A", sessT)]⟩

/-! ### C1 — transfer origination outcome versus the ring watchdog -/

/-- C1 counterexample: the code tests `resp.status == 200`, not "2xx".  With a
session in Transferring and the originate POST answering 201 — a 2xx success,
under which the claim requires the engine to wait out the ring watchdog — the
code instead transitions to CollectingMessage immediately and arms no
watchdog. -/
theorem claimC1_cex :
    (tableLookup (transfer_to_extension stT "A" "102" (some 201) true).1.st "A").map
        CallSession.state = some CallState.collectingMessage ∧
    (transfer_to_extension stT "A" "102" (some 201) true).2 = none := by
  constructor <;> decide

/-- C1 (amended): for a session present in the table, (a) an originate
response with any status other than exactly 200 moves the session to
CollectingMessage immediately, with no watchdog armed; (b) a network error
does the same; (c) a status-200 response leaves the state untouched and arms
the ring watchdog (the `ring_timeout + 1` sleep followed by the state check);
(d) when the armed watchdog fires it moves the session to CollectingMessage
exactly when the session is still in Transferring at that moment. -/
theorem claimC1_transfer_amended (st : EngState) (ch ext : String) (s : CallSession)
    (ttsOk : Bool) (h : tableLookup st ch = some s) :
    (∀ status : Nat, status ≠ 200 →
      (tableLookup (transfer_to_extension st ch ext (some status) ttsOk).1.st ch).map
          CallSession.state = some CallState.collectingMessage ∧
      (transfer_to_extension st ch ext (some status) ttsOk).2 = none) ∧
    ((tableLookup (transfer_to_extension st ch ext none ttsOk).1.st ch).map
        CallSession.state = some CallState.collectingMessage ∧
     (transfer_to_extension st ch ext none ttsOk).2 = none) ∧
    (transfer_to_extension st ch ext (some 200) ttsOk =
      (⟨st, [Action.originate ch ext], false⟩, some ch)) ∧
    (∀ (st' : EngState) (s' : CallSession), tableLookup st' ch = some s' →
      (s'.state = CallState.transferring →
        (tableLookup (watchdog_fire st' s'.state ch true).st ch).map CallSession.state =
          some CallState.collectingMessage) ∧
      (s'.state ≠ CallState.transferring →
        watchdog_fire st' s'.state ch true = ⟨st', [], false⟩)) := by
  refine ⟨?_, ?_, ?_, ?_⟩
  · intro status hst
    simp only [transfer_to_extension, h, if_neg hst]
    exact ⟨smcRetry_state st ch s ttsOk h, trivial⟩
  · simp only [transfer_to_extension, h]
    exact ⟨smc_state st ch s ttsOk h, trivial⟩
  · simp only [transfer_to_extension, h, if_pos rfl]
    rw [if_pos trivial]
  · intro st' s' h'
    constructor
    · intro htr
      rw [htr]
      unfold watchdog_fire
      rw [if_pos rfl]
      exact smcRetry_state st' ch s' true h'
    · intro hne
      unfold watchdog_fire
      rw [if_neg hne]

/-- Witness for C1 (amended) at a concrete one-session table: status 500 falls
straight into collection, status 200 arms the watchdog without touching the
state, and the fired watchdog of a still-Transferring session transitions
it. -/
theorem claimC1_witness :
    ((tableLookup (transfer_to_extension stT "A" "102" (some 500) true).1.st "A").map
        CallSession.state = some CallState.collectingMessage ∧
     (transfer_to_extension stT "A" "102" (some 500) true).2 = none) ∧
    (transfer_to_extension stT "A" "102" (some 200) true =
      (⟨stT, [Action.originate "A" "102"], false⟩, some "A")) ∧
    (tableLookup (watchdog_fire stT sessT.state "A" true).st "A").map
        CallSession.state = some CallState.collectingMessage := by
  have hmain := claimC1_transfer_amended stT "A" "102" sessT true rfl
  exact ⟨hmain.1 500 (by decide), hmain.2.2.1, (hmain.2.2.2 stT sessT rfl).1 rfl⟩

/-! ### C2 — destroyed channel: the watchdog does nothing afterwards -/

/-- C2: after `ChannelDestroyed` pops a session that was in Transferring,
the armed ring watchdog's later firing — which still reads `transferring`
from the captured session object — changes nothing: the channel is gone from
the table, the table is left exactly as it was (no transition, no
re-insertion) and no action, in particular no playback, is emitted
(`start_message_collection` re-looks the channel up and returns). -/
theorem claimC2_watchdog_noop_after_destroy (st : EngState) (ch : String)
    (s : CallSession) (ttsOk : Bool)
    (hs : tableLookup st ch = some s) (htr : s.state = CallState.transferring) :
    tableLookup (on_channel_destroyed st ch) ch = none ∧
    watchdog_fire (on_channel_destroyed st ch) s.state ch ttsOk =
      ⟨on_channel_destroyed st ch, [], false⟩ := by
  refine ⟨tableLookup_destroyed st ch, ?_⟩
  unfold watchdog_fire
  rw [htr, if_pos rfl]
  exact smcRetry_missing _ ch ttsOk (tableLookup_destroyed st ch)

/-- Witness for C2 at the concrete one-session table. -/
theorem claimC2_witness :
    tableLookup (on_channel_destroyed stT "A") "A" = none ∧
    watchdog_fire (on_channel_destroyed stT "A") sessT.state "A" true =
      ⟨on_channel_destroyed stT "A", [], false⟩ :=
  claimC2_watchdog_noop_after_destroy stT "A" sessT true rfl rfl

/-! ### C3 — unclear classification bumps the retry counter -/

/-- C3: in WaitingServiceChoice, an unclear classification (no configured
service name occurs in the model reply) increments `retry_count` by one; if
that reaches 3, the session is in CollectingMessage and the only emitted
action is playing the busy opener — no recording is armed; below 3 the
session remains in WaitingServiceChoice and the clarification response (the
classifier's second component) is played. -/
theorem claimC3_unclear_retries (services : List Service) (st : EngState)
    (ch transcript reply : String) (s : CallSession) (orig : Option Nat)
    (h : tableLookup st ch = some s)
    (hstate : s.state = CallState.waitingServiceChoice)
    (hunclear : (understand_intent services reply).1 = none) :
    (tableLookup (handle_service_choice services st ch transcript (some reply) true orig).1.st
        ch).map CallSession.retry_count = some (s.retry_count + 1) ∧
    (s.retry_count + 1 ≥ 3 →
      (tableLookup (handle_service_choice services st ch transcript (some reply) true orig).1.st
          ch).map CallSession.state = some CallState.collectingMessage ∧
      (handle_service_choice services st ch transcript (some reply) true orig).1.acts =
        [Action.play ch busyOpener]) ∧
    (s.retry_count + 1 < 3 →
      (tableLookup (handle_service_choice services st ch transcript (some reply) true orig).1.st
          ch).map CallSession.state = some CallState.waitingServiceChoice ∧
      (handle_service_choice services st ch transcript (some reply) true orig).1.acts =
        [Action.play ch (understand_intent services reply).2]) := by
  rcases hu : understand_intent services reply with ⟨osvc, resp⟩
  rw [hu] at hunclear
  simp only at hunclear
  subst hunclear
  have hset : tableLookup (tableSet st ch { s with retry_count := s.retry_count + 1 }) ch =
      some { s with retry_count := s.retry_count + 1 } :=
    tableLookup_set st ch _ (by simp [h])
  have hcomp : handle_service_choice services st ch transcript (some reply) true orig =
      (if s.retry_count + 1 ≥ 3 then
        (start_message_collection
          (tableSet st ch { s with retry_count := s.retry_count + 1 }) ch true, none)
      else
        (⟨tableSet st ch { s with retry_count := s.retry_count + 1 },
          [Action.play ch resp], false⟩, none)) := by
    unfold handle_service_choice
    simp only [h]
    rw [hu]
    rfl
  by_cases h3 : s.retry_count + 1 ≥ 3
  · have hsess := smc_session_found (tableSet st ch { s with retry_count := s.retry_count + 1 })
      ch { s with retry_count := s.retry_count + 1 } true hset
    have hacts := smc_acts_found (tableSet st ch { s with retry_count := s.retry_count + 1 })
      ch { s with retry_count := s.retry_count + 1 } true hset
    refine ⟨?_, fun _ => ⟨?_, ?_⟩, fun hlt => absurd h3 (by omega)⟩ <;>
      simp [hcomp, h3, hsess, hacts]
  · rw [hstate] at hset
    refine ⟨?_, fun hge => absurd hge h3, fun _ => ⟨?_, ?_⟩⟩ <;>
      simp [hcomp, h3, hset, hstate, hu]

/-- Witness for C3: with the example directory and the unclear reply `"euh"`,
a session at `retry_count = 2` moves to CollectingMessage with only the busy
opener played, and a session at `retry_count = 0` stays in
WaitingServiceChoice with the clarification played. -/
theorem claimC3_witness :
    ((tableLookup (handle_service_choice svs
        ⟨[("A", { channel_id := "A", caller_id := "c",
                  state := CallState.waitingServiceChoice, retry_count := 2 })]⟩
        "A" "t" (some "euh") true none).1.st "A").map CallSession.retry_count = some 3 ∧
     (tableLookup (handle_service_choice svs
        ⟨[("A", { channel_id := "A", caller_id := "c",
                  state := CallState.waitingServiceChoice, retry_count := 2 })]⟩
        "A" "t" (some "euh") true none).1.st "A").map CallSession.state =
       some CallState.collectingMessage) ∧
    ((tableLookup (handle_service_choice svs
        ⟨[("A", { channel_id := "A", caller_id := "c",
                  state := CallState.waitingServiceChoice })]⟩
        "A" "t" (some "euh") true none).1.st "A").map CallSession.state =
       some CallState.waitingServiceChoice) := by
  have h1 := claimC3_unclear_retries svs
    ⟨[("A", { channel_id := "A", caller_id := "c",
              state := CallState.waitingServiceChoice, retry_count := 2 })]⟩
    "A" "t" "euh"
    { channel_id := "A", caller_id := "c",
      state := CallState.waitingServiceChoice, retry_count := 2 }
    none rfl rfl (by decide)
  have h2 := claimC3_unclear_retries svs
    ⟨[("A", { channel_id := "A", caller_id := "c",
              state := CallState.waitingServiceChoice })]⟩
    "A" "t" "euh"
    { channel_id := "A", caller_id := "c", state := CallState.waitingServiceChoice }
    none rfl rfl (by decide)
  exact ⟨⟨h1.1, (h1.2.1 (by decide)).1⟩, (h2.2.2 (by decide)).1⟩

/-! ### C10 — RecordingFinished in Greeting/Transferring/Ending -/

/-- C10: a RecordingFinished event for a known session in Greeting,
Transferring or Ending still runs speech-to-text on the recording file
(`/var/spool/asterisk/recording/<name>.wav`) but leaves the engine state — and
hence every field of every session — unchanged, whether the transcription
returns (`sttOut = some _`) or raises (`sttOut = none`). -/
theorem claimC10_frame_other_states (services : List Service) (st : EngState)
    (recording_name target_uri ch : String) (s : CallSession)
    (sttOut chatReply : Option String) (collectOut : Option CollectResult)
    (ttsOk : Bool) (orig : Option Nat)
    (hex : extractChannelId target_uri = some ch)
    (h : tableLookup st ch = some s)
    (hstate : s.state = CallState.greeting ∨ s.state = CallState.transferring ∨
              s.state = CallState.ending) :
    (on_recording_finished services st recording_name target_uri sttOut chatReply
        collectOut ttsOk orig).1.st = st ∧
    Action.stt (recordingPath recording_name) ∈
      (on_recording_finished services st recording_name target_uri sttOut chatReply
        collectOut ttsOk orig).1.acts := by
  have hw : s.state ≠ CallState.waitingServiceChoice := by
    rcases hstate with h' | h' | h' <;> simp [h']
  have hc : s.state ≠ CallState.collectingMessage := by
    rcases hstate with h' | h' | h' <;> simp [h']
  cases sttOut with
  | none =>
    cases ttsOk <;>
      simp [on_recording_finished, hex, h, play_error_and_retry]
  | some transcript =>
    simp [on_recording_finished, hex, h, if_neg hw, if_neg hc]

/-- Witness for C10: a session in Transferring, transcription raising. -/
theorem claimC10_witness :
    (on_recording_finished svs stT "r7" "channel:A" none none none true none).1.st = stT ∧
    Action.stt (recordingPath "r7") ∈
      (on_recording_finished svs stT "r7" "channel:A" none none none true none).1.acts :=
  claimC10_frame_other_states svs stT "r7" "channel:A" "A" sessT none none none true none
    (by decide) rfl (Or.inr (Or.inl rfl))

/-! ### TTS fixtures: concrete digest/synthesis stand-ins -/

/-- Constant stand-in for the MD5 hex digest. -/
def d0 : List UInt8 → String := fun _ => "0123456789abcdef"

/-- Constant stand-in for the upstream synthesis endpoint. -/
def a0 : String → List UInt8 := fun _ => [1, 2, 3]

/-- The cache path `d0`-fingerprinted texts land on. -/
def p0 : String := "/app/audio_cache/0123456789ab.wav"

/-- Filesystem holding an existing but empty file at the cache path. -/
def fsEmptyFile : FS := fun p => if p = p0 then some [] else none

/-! ### C5 — cache-hit condition of `text_to_speech` -/

/-- C5 counterexample: the source tests only `cache_path.exists()`.  With an
existing but empty cache file the call still returns the cached path and does
not synthesize, whereas the claim requires an empty file to be a miss that
triggers a new synthesis. -/
theorem claimC5_cex :
    fsEmptyFile p0 = some [] ∧
    (text_to_speech d0 a0 "/app/audio_cache" fsEmptyFile "bonjour" true).synthesized = false ∧
    (text_to_speech d0 a0 "/app/audio_cache" fsEmptyFile "bonjour" true).path = p0 := by
  refine ⟨rfl, by decide, by decide⟩

/-- C5 (amended): the returned path is `cache_dir/<first 12 hex characters of
the content digest of the UTF-8 bytes of text>.wav`, and the upstream
synthesis is skipped if and only if `use_cache` is set and a file exists at
that path — empty or not. -/
theorem claimC5_cache_hit_amended (digest : List UInt8 → String)
    (synth : String → List UInt8) (cacheDir : String) (fs : FS) (text : String)
    (use_cache : Bool) :
    (text_to_speech digest synth cacheDir fs text use_cache).path =
      cacheDir ++ "/" ++ (digest text.toUTF8.toList).take 12 ++ ".wav" ∧
    ((text_to_speech digest synth cacheDir fs text use_cache).synthesized = false ↔
      use_cache = true ∧ (fs (ttsPath digest cacheDir text)).isSome = true) := by
  unfold text_to_speech
  cases use_cache with
  | false => simp [ttsPath]
  | true =>
    cases hfs : (fs (cacheDir ++ "/" ++ (digest text.toUTF8.toList).take 12 ++ ".wav")).isSome with
    | false => simp [ttsPath, hfs]
    | true => simp [ttsPath, hfs]

/-! ### C6 — concurrent cache misses -/

/-- C6 counterexample: two concurrent `text_to_speech` callers for the same
text, both checking the empty cache before either writes, issue two upstream
syntheses (the claim demands exactly one); moreover with schedule A, A, B the
second caller finishes by returning the cache path while the file at that
path is still empty — a partial file (the claim demands a complete one). -/
theorem claimC6_cex :
    (ttsConcur d0 a0 "/app/audio_cache" "bonjour" [true, false]).synthCount = 2 ∧
    (runSched d0 a0 "/app/audio_cache"
        ⟨fun _ => none, 0, ⟨"bonjour", TTSPhase.ready⟩, ⟨"bonjour", TTSPhase.ready⟩⟩
        [true, true, false]).tB.phase = TTSPhase.done p0 true ∧
    (runSched d0 a0 "/app/audio_cache"
        ⟨fun _ => none, 0, ⟨"bonjour", TTSPhase.ready⟩, ⟨"bonjour", TTSPhase.ready⟩⟩
        [true, true, false]).fs p0 = some [] := by
  refine ⟨by decide, by decide, rfl⟩

/-- C6 (amended): with no single-flight guard and no temporary file in the
source, two concurrent same-text callers missing the cache may each issue an
upstream synthesis — between one and two syntheses happen, depending on the
interleaving — and a caller may return while the file is partial; what does
hold, over every interleaving of the two callers, is that both finish with
the same cache path and that once both have finished the file at that path
holds the complete synthesized stream. -/
theorem claimC6_concurrency_amended : ∀ b1 b2 b3 b4 b5 b6 : Bool,
    doneAt (ttsConcur d0 a0 "/app/audio_cache" "bonjour" [b1, b2, b3, b4, b5, b6]).tA.phase
      p0 = true ∧
    doneAt (ttsConcur d0 a0 "/app/audio_cache" "bonjour" [b1, b2, b3, b4, b5, b6]).tB.phase
      p0 = true ∧
    1 ≤ (ttsConcur d0 a0 "/app/audio_cache" "bonjour" [b1, b2, b3, b4, b5, b6]).synthCount ∧
    (ttsConcur d0 a0 "/app/audio_cache" "bonjour" [b1, b2, b3, b4, b5, b6]).synthCount ≤ 2 ∧
    (ttsConcur d0 a0 "/app/audio_cache" "bonjour" [b1, b2, b3, b4, b5, b6]).fs p0 =
      some (a0 "bonjour") := by
  decide

/-! ### C9 — `use_cache=false` still writes the cache -/

/-- C9: with `use_cache=false` the flag only skips the cache read: the call
synthesizes, writes the result to the regular cache path and returns it, so a
later `use_cache=true` call for the same text hits the cache — same path,
no new upstream synthesis. -/
theorem claimC9_nocache_write_feeds_cache (digest : List UInt8 → String)
    (synth : String → List UInt8) (cacheDir text : String) (fs : FS) :
    (text_to_speech digest synth cacheDir fs text false).path =
      ttsPath digest cacheDir text ∧
    (text_to_speech digest synth cacheDir fs text false).synthesized = true ∧
    (text_to_speech digest synth cacheDir fs text false).fs
      (ttsPath digest cacheDir text) = some (synth text) ∧
    (text_to_speech digest synth cacheDir
        (text_to_speech digest synth cacheDir fs text false).fs text true).synthesized =
      false ∧
    (text_to_speech digest synth cacheDir
        (text_to_speech digest synth cacheDir fs text false).fs text true).path =
      (text_to_speech digest synth cacheDir fs text false).path := by
  refine ⟨rfl, rfl, ?_, ?_, ?_⟩ <;> (unfold text_to_speech; simp)

/-! ### C7 — `message_info` merge on a collection turn -/

/-- A session mid-collection with a recorded caller name. -/
def sessM : CallSession :=
  { channel_id := "A", caller_id := "41790000000", state := CallState.collectingMessage,
    message_info := [("nom", "Marie")] }

/-- One-session table holding `sessM`. -/
def stM : EngState := ⟨[("A", sessM)]⟩

/-- C7 counterexample: `message_info.update(result["info"])` is a plain dict
update, so a field the collector returns with an *empty* value overwrites the
set prior value — the claim requires the prior value to be kept. -/
theorem claimC7_cex :
    (tableLookup (handle_message_collection stM "A" "t"
        (some ⟨false, [("nom", "")], "q"⟩) true).st "A").map
      (fun s' => List.lookup "nom" s'.message_info) = some (some "") ∧
    ("" : String) ≠ "Marie" := by
  constructor <;> decide

/-- C7 (amended): on a collection turn the session's `message_info` is
updated by plain shallow dict update — every field present in the collector's
returned info overwrites the prior value, empty or not, and only fields
absent from the returned info keep their prior values. -/
theorem claimC7_merge_amended (st : EngState) (ch transcript : String) (s : CallSession)
    (result : CollectResult) (ttsOk : Bool) (k : String)
    (h : tableLookup st ch = some s) :
    (tableLookup (handle_message_collection st ch transcript (some result) ttsOk).st ch).map
        (fun s' => List.lookup k s'.message_info) =
      some (match List.lookup k result.info with
            | some v => some v
            | none => List.lookup k s.message_info) := by
  unfold handle_message_collection
  simp only [h]
  have hset : ∀ x : CallSession, tableLookup (tableSet st ch x) ch = some x :=
    fun x => tableLookup_set st ch x (by simp [h])
  cases ttsOk with
  | false => simp [hset, lookup_dictUpdate]
  | true =>
    cases hc : result.complete with
    | false => simp [hc, hset, lookup_dictUpdate]
    | true => simp [hc, hset, lookup_dictUpdate]

/-- Witness for C7: a field absent from the returned info survives the merge. -/
theorem claimC7_witness :
    (tableLookup (handle_message_collection stM "A" "t"
        (some ⟨false, [("societe", "Acme")], "q"⟩) true).st "A").map
      (fun s' => List.lookup "nom" s'.message_info) = some (some "Marie") := by
  have h := claimC7_merge_amended stM "A" "t" sessM
    ⟨false, [("societe", "Acme")], "q"⟩ true "nom" rfl
  rw [h]
  decide

/-! ### C8 — conversation role alternation -/

/-- Adjacent messages carry different roles throughout the list. -/
def rolesAlternate : List Msg → Bool
  | [] => true
  | [_] => true
  | a :: b :: t => (a.role != b.role) && rolesAlternate (b :: t)

/-- Role of the last message, if any. -/
def lastRole (l : List Msg) : Option String := l.getLast?.map Msg.role

theorem rolesAlternate_append_one (l : List Msg) (m : Msg)
    (hl : rolesAlternate l = true) (hm : lastRole l ≠ some m.role) :
    rolesAlternate (l ++ [m]) = true ∧ lastRole (l ++ [m]) = some m.role := by
  induction l with
  | nil => simp [rolesAlternate, lastRole]
  | cons a t ih =>
    cases t with
    | nil =>
      have hne : a.role ≠ m.role := by
        intro he; exact hm (by simp [lastRole, he])
      simp [rolesAlternate, lastRole, hne]
    | cons b t' =>
      simp only [rolesAlternate, Bool.and_eq_true] at hl
      have hm' : lastRole (b :: t') ≠ some m.role := by
        simpa [lastRole, List.getLast?_cons_cons] using hm
      have hrec := ih hl.2 hm'
      refine ⟨?_, ?_⟩
      · have h1 := hrec.1
        simp only [List.cons_append] at h1 ⊢
        simp [rolesAlternate, hl.1, h1]
      · have h2 := hrec.2
        simp only [lastRole, List.cons_append, List.getLast?_cons_cons] at h2 ⊢
        exact h2

/-- A session whose collection dialog was just opened. -/
def sessC : CallSession :=
  { channel_id := "A", caller_id := "41790000000", state := CallState.collectingMessage,
    conversation := [⟨"assistant", busyOpener⟩] }

/-- One-session table holding `sessC`. -/
def stC : EngState := ⟨[("A", sessC)]⟩

/-- C8 counterexample: a collection turn whose collector call raises *after*
the user transcript was appended (the clarification-retry path the claim
includes) leaves the conversation ending in a user message; the next turn
appends another user message, so two adjacent messages share the role
`user`. -/
theorem claimC8_cex :
    (tableLookup (on_recording_finished svs
        (on_recording_finished svs stC "r1" "channel:A" (some "Jean") none none true
          none).1.st
        "r2" "channel:A" (some "Marc") none none true none).1.st "A").map
      CallSession.conversation =
      some [⟨"assistant", busyOpener⟩, ⟨"user", "Jean"⟩, ⟨"user", "Marc"⟩] ∧
    rolesAlternate
      [⟨"assistant", busyOpener⟩, ⟨"user", "Jean"⟩, ⟨"user", "Marc"⟩] = false := by
  constructor <;> decide

/-- C8 (amended): messages are appended only at the end of the conversation,
in temporal order.  Collection init leaves the single assistant opener; a
collection turn on which the collector and the synthesis both return appends
exactly the user transcript followed by the assistant response, and — when
the prior conversation alternates and ends on an assistant message — the
resulting conversation still alternates and ends on an assistant message.
(Alternation is *not* preserved on turns where collection or synthesis
raises after the user append: see the counterexample.) -/
theorem claimC8_alternation_amended :
    (∀ (st : EngState) (ch : String) (s : CallSession), tableLookup st ch = some s →
      (tableLookup (start_message_collection st ch true).st ch).map
          CallSession.conversation = some [⟨"assistant", busyOpener⟩]) ∧
    (∀ (st : EngState) (ch transcript : String) (s : CallSession) (result : CollectResult),
      tableLookup st ch = some s →
      (tableLookup (handle_message_collection st ch transcript (some result) true).st ch).map
          CallSession.conversation =
        some (s.conversation ++ [⟨"user", transcript⟩, ⟨"assistant", result.response⟩]) ∧
      (rolesAlternate s.conversation = true → lastRole s.conversation = some "assistant" →
        rolesAlternate (s.conversation ++
          [⟨"user", transcript⟩, ⟨"assistant", result.response⟩]) = true ∧
        lastRole (s.conversation ++
          [⟨"user", transcript⟩, ⟨"assistant", result.response⟩]) = some "assistant")) := by
  constructor
  · intro st ch s h
    rw [smc_session_found st ch s true h]
    rfl
  · intro st ch transcript s result h
    constructor
    · unfold handle_message_collection
      simp only [h]
      have hset : ∀ x : CallSession, tableLookup (tableSet st ch x) ch = some x :=
        fun x => tableLookup_set st ch x (by simp [h])
      cases hc : result.complete with
      | false => simp [hc, hset]
      | true => simp [hc, hset]
    · intro halt hlast
      have h1 := rolesAlternate_append_one s.conversation ⟨"user", transcript⟩ halt
        (by rw [hlast]; simp)
      have h2 := rolesAlternate_append_one (s.conversation ++ [⟨"user", transcript⟩])
        ⟨"assistant", result.response⟩ h1.1 (by rw [h1.2]; simp)
      constructor
      · have := h2.1
        simpa [List.append_assoc] using this
      · have := h2.2
        simpa [List.append_assoc] using this

/-- Witness for C8 (amended): the opener after collection init, and one
well-behaved collection turn extending an alternating conversation. -/
theorem claimC8_witness :
    (tableLookup (start_message_collection stC "A" true).st "A").map
      CallSession.conversation = some [⟨"assistant", busyOpener⟩] ∧
    (tableLookup (handle_message_collection stC "A" "Jean"
        (some ⟨false, [], "Et votre société ?"⟩) true).st "A").map
      CallSession.conversation =
      some (sessC.conversation ++
        [⟨"user", "Jean"⟩, ⟨"assistant", "Et votre société ?"⟩]) := by
  have hmain := claimC8_alternation_amended
  exact ⟨hmain.1 stC "A" sessC rfl,
    (hmain.2 stC "A" "Jean" sessC ⟨false, [], "Et votre société ?"⟩ rfl).1⟩

/-! ### Substring lemmas for the intent classifier -/

theorem beginsWith_iff (n h : List Char) : beginsWith n h = true ↔ ∃ r, h = n ++ r := by
  induction n generalizing h with
  | nil => simp [beginsWith]
  | cons a as ih =>
    cases h with
    | nil => simp [beginsWith]
    | cons b bs =>
      simp only [beginsWith, Bool.and_eq_true, beq_iff_eq, ih, List.cons_append,
        List.cons_eq_cons]
      constructor
      · rintro ⟨hab, r, hr⟩
        exact ⟨r, hab.symm, hr⟩
      · rintro ⟨r, hba, hr⟩
        exact ⟨hba.symm, r, hr⟩

theorem occursIn_iff (n h : List Char) :
    occursIn n h = true ↔ ∃ l r, h = l ++ (n ++ r) := by
  induction h with
  | nil =>
    simp only [occursIn, beginsWith_iff]
    constructor
    · rintro ⟨r, hr⟩
      exact ⟨[], r, by simpa using hr⟩
    · rintro ⟨l, r, hr⟩
      rcases List.append_eq_nil.mp hr.symm with ⟨hl, hnr⟩
      rcases List.append_eq_nil.mp hnr with ⟨hn, hr'⟩
      exact ⟨[], by simp [hn]⟩
  | cons b bs ih =>
    simp only [occursIn, Bool.or_eq_true, beginsWith_iff, ih]
    constructor
    · rintro (⟨r, hr⟩ | ⟨l, r, hr⟩)
      · exact ⟨[], r, by simpa using hr⟩
      · exact ⟨b :: l, r, by simp [hr]⟩
    · rintro ⟨l, r, hr⟩
      cases l with
      | nil => exact Or.inl ⟨r, by simpa using hr⟩
      | cons x xs =>
        rw [List.cons_append] at hr
        rcases List.cons_eq_cons.mp hr with ⟨hbx, hrest⟩
        exact Or.inr ⟨xs, r, hrest⟩

theorem occursIn_nil_left (h : List Char) : occursIn [] h = true := by
  cases h <;> simp [occursIn, beginsWith]

theorem occursIn_reverse (n h : List Char) :
    occursIn n.reverse h.reverse = occursIn n h := by
  rw [Bool.eq_iff_iff, occursIn_iff, occursIn_iff]
  constructor
  · rintro ⟨l, r, hr⟩
    refine ⟨r.reverse, l.reverse, ?_⟩
    have := congrArg List.reverse hr
    simpa [List.reverse_append, List.append_assoc] using this
  · rintro ⟨l, r, hr⟩
    refine ⟨r.reverse, l.reverse, ?_⟩
    subst hr
    simp [List.reverse_append, List.append_assoc]

theorem ws_toLower {c : Char} (hc : c.isWhitespace = true) : c.toLower = c := by
  rcases (by simpa [Char.isWhitespace] using hc :
      ((c = ' ' ∨ c = '\t') ∨ c = '\x0d') ∨ c = '\n') with ((h | h) | h) | h <;>
    subst h <;> decide

theorem occursIn_lower_dropWhile (n : List Char)
    (hn : ∀ c cs, n = c :: cs → c.isWhitespace = false) (h : List Char) :
    occursIn n (pyLower (pyStripL h)) = occursIn n (pyLower h) := by
  induction h with
  | nil => rfl
  | cons a t ih =>
    cases ha : a.isWhitespace with
    | false =>
      have h1 : pyStripL (a :: t) = a :: t := by
        simp [pyStripL, List.dropWhile_cons, ha]
      rw [h1]
    | true =>
      have h1 : pyStripL (a :: t) = pyStripL t := by
        simp [pyStripL, List.dropWhile_cons, ha]
      rw [h1, ih]
      cases n with
      | nil => simp [occursIn_nil_left]
      | cons c cs =>
        have hc := hn c cs rfl
        have hla : a.toLower = a := ws_toLower ha
        have hmap : pyLower (a :: t) = a :: pyLower t := by simp [pyLower, hla]
        rw [hmap]
        have hne : (c == a) = false := by
          simp only [beq_eq_false_iff_ne, ne_eq]
          intro he
          rw [he, ha] at hc
          simp at hc
        show occursIn (c :: cs) (pyLower t) = occursIn (c :: cs) (a :: pyLower t)
        have hbw : beginsWith (c :: cs) (a :: pyLower t) = false := by
          simp [beginsWith, hne]
        show occursIn (c :: cs) (pyLower t) =
          (beginsWith (c :: cs) (a :: pyLower t) || occursIn (c :: cs) (pyLower t))
        rw [hbw]
        simp

theorem pyStripL_head_not_ws (l : List Char) (h : pyStripL l = l) :
    ∀ c cs, l = c :: cs → c.isWhitespace = false := by
  intro c cs hl
  subst hl
  cases hq : c.isWhitespace with
  | false => rfl
  | true =>
    exfalso
    rw [pyStripL, List.dropWhile_cons, if_pos hq] at h
    have hlen := (List.dropWhile_sublist (l := cs) Char.isWhitespace).length_le
    rw [h] at hlen
    simp at hlen

theorem pyStrip_eq_self_parts (n : List Char) (h : pyStrip n = n) :
    pyStripL n = n ∧ pyStripL n.reverse = n.reverse := by
  have hdef : pyStrip n = (pyStripL ((pyStripL n).reverse)).reverse := rfl
  have l1 : (pyStripL ((pyStripL n).reverse)).length ≤ (pyStripL n).length := by
    have := (List.dropWhile_sublist (l := (pyStripL n).reverse) Char.isWhitespace).length_le
    simpa [pyStripL] using this
  have l2 : (pyStripL n).length ≤ n.length :=
    (List.dropWhile_sublist (l := n) Char.isWhitespace).length_le
  have l3 : (pyStrip n).length = n.length := by rw [h]
  have l4 : (pyStrip n).length = (pyStripL ((pyStripL n).reverse)).length := by
    rw [hdef, List.length_reverse]
  have heq1 : (pyStripL n).length = n.length := by omega
  have hA : pyStripL n = n :=
    ((List.dropWhile_suffix (l := n) Char.isWhitespace).sublist).eq_of_length heq1
  rw [hA] at hdef
  have hB : pyStripL n.reverse = n.reverse := by
    have hrr : (pyStripL n.reverse).reverse = n := hdef.symm.trans h
    calc pyStripL n.reverse = ((pyStripL n.reverse).reverse).reverse := by
          rw [List.reverse_reverse]
      _ = n.reverse := by rw [hrr]
  exact ⟨hA, hB⟩

/-- Stripping the haystack does not change substring containment when the
needle itself carries no leading or trailing whitespace. -/
theorem occursIn_lower_strip (n : List Char) (hn : pyStrip n = n) (h : List Char) :
    occursIn n (pyLower (pyStrip h)) = occursIn n (pyLower h) := by
  rcases pyStrip_eq_self_parts n hn with ⟨hA, hB⟩
  have hhead := pyStripL_head_not_ws n hA
  have hheadRev := pyStripL_head_not_ws n.reverse hB
  have hlrev : ∀ X : List Char, pyLower X.reverse = (pyLower X).reverse := by
    intro X; simp [pyLower]
  have hswap : ∀ X : List Char,
      occursIn n ((pyLower X).reverse) = occursIn n.reverse (pyLower X) := by
    intro X
    have := occursIn_reverse n.reverse (pyLower X)
    rwa [List.reverse_reverse] at this
  have hdef : pyStrip h = (pyStripL ((pyStripL h).reverse)).reverse := rfl
  rw [hdef, hlrev, hswap,
    occursIn_lower_dropWhile n.reverse hheadRev ((pyStripL h).reverse),
    hlrev, occursIn_reverse n (pyLower (pyStripL h)),
    occursIn_lower_dropWhile n hhead h]

/-! ### `List.find?` helper lemmas -/

theorem find?_congr_on {α : Type} (l : List α) (p q : α → Bool)
    (h : ∀ x ∈ l, p x = q x) : l.find? p = l.find? q := by
  induction l with
  | nil => rfl
  | cons a t ih =>
    have ha := h a (by simp)
    rw [List.find?_cons, List.find?_cons, ha]
    cases hqa : q a with
    | true => rfl
    | false => exact ih fun x hx => h x (List.mem_cons_of_mem a hx)

theorem find?_eq_some_split {α : Type} (l : List α) (p : α → Bool) (a : α)
    (h : l.find? p = some a) :
    ∃ l₁ l₂, l = l₁ ++ a :: l₂ ∧ p a = true ∧ ∀ x ∈ l₁, p x = false := by
  induction l with
  | nil => simp [List.find?] at h
  | cons b t ih =>
    cases hb : p b with
    | false =>
      simp only [List.find?_cons, hb] at h
      rcases ih h with ⟨l₁, l₂, h1, h2, h3⟩
      refine ⟨b :: l₁, l₂, by rw [h1]; rfl, h2, ?_⟩
      intro x hx
      rcases List.mem_cons.mp hx with hxb | hxl
      · rwa [hxb]
      · exact h3 x hxl
    | true =>
      simp only [List.find?_cons, hb] at h
      have hba : b = a := by simpa using h
      subst hba
      exact ⟨[], t, rfl, hb, by simp⟩

/-! ### `understand_intent` projection lemmas -/

theorem understand_intent_fst (services : List Service) (content : String) :
    (understand_intent services content).1 =
      services.find? (fun s =>
        occursIn (pyLower s.name.toList) (pyLower (pyStrip content.toList))) := by
  unfold understand_intent
  cases hf : services.find? (fun s =>
      occursIn (pyLower s.name.toList) (pyLower (pyStrip content.toList))) with
  | none =>
    simp only [String.toList] at hf
    simp [String.toList, hf]
  | some v =>
    simp only [String.toList] at hf
    simp [String.toList, hf]

theorem understand_intent_snd_none (services : List Service) (content : String)
    (h : (understand_intent services content).1 = none) :
    (understand_intent services content).2 = String.mk (pyStrip content.toList) := by
  rw [understand_intent_fst] at h
  simp only [String.toList] at h
  unfold understand_intent
  simp [String.toList, h]

theorem understand_intent_snd_some (services : List Service) (content : String)
    (s : Service) (h : (understand_intent services content).1 = some s) :
    (understand_intent services content).2 = transferTemplate s.name := by
  rw [understand_intent_fst] at h
  simp only [String.toList] at h
  unfold understand_intent
  simp [String.toList, h]

/-! ### C4 — intent classification -/

/-- C4 counterexample: the source strips the model reply before matching, and
on no match returns the *stripped* reply, not the model reply itself as the
claim states: with reply `"bonjour "` the returned clarification response is
`"bonjour"`. -/
theorem claimC4_cex :
    (understand_intent [⟨"101", "Ventes"⟩] "bonjour ").1 = none ∧
    (understand_intent [⟨"101", "Ventes"⟩] "bonjour ").2 = "bonjour" ∧
    "bonjour" ≠ "bonjour " := by
  refine ⟨by decide, by decide, by decide⟩

/-- C4 (amended): for configured service names (which the configuration
loader whitespace-strips, so their lowered forms equal their stripped lowered
forms), classification returns a service iff some configured name occurs
case-insensitively as a substring of the model reply; the returned service is
the first such in directory order; on a match the response is exactly the
announcement template `"Je vous transfère au <name>. Un instant s'il vous
plaît."`; on no match the service is `none` and the response is the
*whitespace-stripped* model reply. -/
theorem claimC4_classifier_amended (services : List Service) (content : String)
    (hn : ∀ s ∈ services, pyStrip (pyLower s.name.toList) = pyLower s.name.toList) :
    ((understand_intent services content).1 =
      services.find? (fun s =>
        occursIn (pyLower s.name.toList) (pyLower content.toList))) ∧
    ((understand_intent services content).1.isSome = true ↔
      ∃ s ∈ services, occursIn (pyLower s.name.toList) (pyLower content.toList) = true) ∧
    (∀ s, (understand_intent services content).1 = some s →
      (∃ pre post, services = pre ++ s :: post ∧
        occursIn (pyLower s.name.toList) (pyLower content.toList) = true ∧
        ∀ t ∈ pre, occursIn (pyLower t.name.toList) (pyLower content.toList) = false) ∧
      (understand_intent services content).2 = transferTemplate s.name) ∧
    ((understand_intent services content).1 = none →
      (understand_intent services content).2 = String.mk (pyStrip content.toList)) := by
  have hfst : (understand_intent services content).1 =
      services.find? (fun s =>
        occursIn (pyLower s.name.toList) (pyLower content.toList)) :=
    (understand_intent_fst services content).trans
      (find?_congr_on services _ _
        (fun s hs => occursIn_lower_strip _ (hn s hs) content.toList))
  refine ⟨hfst, ?_, ?_, understand_intent_snd_none services content⟩
  · rw [hfst]
    exact List.find?_isSome
  · intro s hs
    refine ⟨?_, understand_intent_snd_some services content s hs⟩
    rw [hfst] at hs
    exact find?_eq_some_split services _ s hs

/-- Witness for C4 (amended) on the example directory: `"Support"` occurs in
the reply, the matching service is returned with the announcement template. -/
theorem claimC4_witness :
    (understand_intent svs "je voudrais le Support svp").1 = some ⟨"102", "Support"⟩ ∧
    (understand_intent svs "je voudrais le Support svp").2 = transferTemplate "Support" := by
  have hmain := claimC4_classifier_amended svs "je voudrais le Support svp" (by decide)
  have h1 : (understand_intent svs "je voudrais le Support svp").1 =
      some ⟨"102", "Support"⟩ := by
    rw [hmain.1]
    decide
  exact ⟨h1, (hmain.2.2.1 ⟨"102", "Support"⟩ h1).2⟩

end Recept
